import Mathlib

/-!
Verification of the `make_injection_pipeline` transformation from the
`source_injection` repository (file
`python/lsst/source/injection/utils/make_injection_pipeline.py`).

The external `lsst.pipe.base.Pipeline` API (task collection, labeled
subsets, config overrides, merging) is modelled from the specification of
the data model: a pipeline is a list of task definitions in
dependency-respecting topological order (the order produced by
`toExpandedPipeline`), a list of named subsets of task labels, and an
ordered record of config overrides `(task label, key, value)` where a
later record for the same key shadows an earlier one.
-/

namespace SourceInjection

/-- A named connection slot on a task: `field` is the connection attribute
name, `name` is the dataset type name it resolves to, and `isStatic`
records whether the field exists statically on the task's connections
class (`hasattr(taskDef.config.connections.ConnectionsClass, field)` in
the source). -/
structure Connection where
  field : String
  name : String
  isStatic : Bool
deriving DecidableEq, Repr

/-- A task definition: a graph node with labeled input/output connections.
`isAnalysis` models `issubclass(taskDef.taskClass, AnalysisPipelineTask)`
(the spec's `hasDynamicConnections` capability flag), and `outputName`
models the task's declared `config.connections.outputName` value. -/
structure TaskDef where
  label : String
  isAnalysis : Bool
  outputName : String
  inputs : List Connection
  outputs : List Connection
deriving DecidableEq, Repr

/-- A named subset: a group of task labels, independent of graph edges. -/
structure Subset where
  name : String
  labels : List String
deriving DecidableEq, Repr

/-- Modelled from the spec: the external `lsst.pipe.base.Pipeline`
aggregate of task definitions (unique by label, listed in topological
order), named subsets, and the config-override record. -/
structure Pipeline where
  tasks : List TaskDef
  subsets : List Subset
  overrides : List (String × String × String)
deriving DecidableEq, Repr

/-- Modelled from the spec: `pipeline.addConfigOverride(label, key, value)`
appends an override record; overrides are additive and non-destructive,
with a later record for the same key shadowing an earlier one. -/
def addConfigOverride (p : Pipeline) (label key value : String) : Pipeline :=
  { p with overrides := p.overrides ++ [(label, key, value)] }

/-- Last-write-wins lookup of a config override value. -/
def getOverride (p : Pipeline) (label key : String) : Option String :=
  ((p.overrides.filter fun o => o.1 == label && o.2.1 == key).map fun o => o.2.2).getLast?

/-- Modelled from the spec: removing a task label from every subset that
hosts it (`findSubsetsWithLabel` followed by `removeLabelFromSubset` on
each host subset, source lines 114-120); removal of an absent label is a
no-op. -/
def removeLabelFromSubsets (p : Pipeline) (task_label : String) : Pipeline :=
  { p with subsets := p.subsets.map fun s => { s with labels := s.labels.filter fun l => l != task_label } }

/-- The pointwise effect of `addLabelToSubset` on one subset: a matching
subset gains the label unless it already holds it. -/
def updateSubsetLabels (subset_name label : String) (s : Subset) : Subset :=
  if s.name = subset_name then
    (if label ∈ s.labels then s else { s with labels := s.labels ++ [label] })
  else s

/-- Modelled from the spec: `pipeline.addLabelToSubset(subset, label)` —
add a label to the named subset's membership; the add is idempotent. -/
def addLabelToSubset (p : Pipeline) (subset_name label : String) : Pipeline :=
  { p with subsets := p.subsets.map (updateSubsetLabels subset_name label) }

/-- Modelled from the spec: `pipeline.findSubsetsWithLabel(label)` — the
names of all subsets whose membership contains the label. -/
def findSubsetsWithLabel (p : Pipeline) (label : String) : List String :=
  (p.subsets.filter fun s => label ∈ s.labels).map Subset.name

/-- One iteration of the exclusion loop (source lines 112-125): remove the
label from every host subset, then remove the task itself; a label with no
matching task is recorded in the not-found accumulator instead of failing
(the `except KeyError` branch). -/
def excludeStep (acc : Pipeline × List String) (task_label : String) : Pipeline × List String :=
  let p := removeLabelFromSubsets acc.1 task_label
  if p.tasks.any fun t => t.label == task_label then
    ({ p with tasks := p.tasks.filter fun t => t.label != task_label }, acc.2)
  else
    (p, acc.2 ++ [task_label])

/-- The Exclusion Pass (source lines 108-125). `excluded_tasks` is given as
a list because Python iterates the set in unspecified order. -/
def excludePass (p : Pipeline) (excluded_tasks : List String) : Pipeline × List String :=
  excluded_tasks.foldl excludeStep (p, [])

/-- The batched not-found warning (source lines 126-132): grammar-aware
count word, sorted comma-joined label list. -/
def exclusionWarning (not_excluded_tasks : List String) : Option String :=
  if 0 < not_excluded_tasks.length then
    let grammar := if not_excluded_tasks.length = 1 then "Task" else "Tasks"
    some (grammar ++ " marked for exclusion not found in the reference pipeline: " ++
      String.intercalate ", " (not_excluded_tasks.insertionSort (· ≤ ·)) ++ ".")
  else none

/-- `_get_dataset_type_names` (source lines 32-37): the set of dataset type
names resolved by a collection of connection fields. -/
def _get_dataset_type_names (conns : List Connection) : Finset String :=
  (conns.map Connection.name).toFinset

/-- The propagation working state: the pipeline being mutated in place,
the ephemeral sets of the pass (source lines 134-137), and the
dynamic-connection warnings emitted as `(field, task label)` pairs
(source lines 170-176). -/
structure PropState where
  pipeline : Pipeline
  all_connection_type_names : Finset String
  injected_types : Finset String
  precursor_injection_task_labels : List String
  dynamic_warnings : List (String × String)
deriving DecidableEq

/-- Python `set.add` on a set modelled as a duplicate-free list in
insertion order. -/
def setAdd (l : List String) (x : String) : List String :=
  if x ∈ l then l else l ++ [x]

/-- The per-field body of the rename loop of an affected task (source lines
164-176): a static field whose effective name is injected is renamed by a
config override; a dynamic field is left unmodified and a warning is
recorded. -/
def renameConnection (pfx task_label : String) (s : PropState) (c : Connection) : PropState :=
  if c.isStatic then
    if c.name ∈ s.injected_types then
      let pl := addConfigOverride s.pipeline task_label ("connections." ++ c.field) (pfx ++ c.name)
      { s with pipeline := pl }
    else s
  else
    { s with dynamic_warnings := s.dynamic_warnings ++ [(c.field, task_label)] }

/-- One iteration of the propagation loop (source lines 139-176). An
analysis task (dynamically assigned connections) receives a single
`connections.outputName` override and is skipped thereafter. Otherwise the
task's names are catalogued, a producer of the seed is recorded as a
precursor, and an affected task (some input in the injected set) has its
outputs added to the injected set and its fields renamed. -/
def processTask (dataset_type_name pfx : String) (st : PropState) (taskDef : TaskDef) :
    PropState :=
  if taskDef.isAnalysis then
    let pl := addConfigOverride st.pipeline taskDef.label "connections.outputName" (pfx ++ taskDef.outputName)
    { st with pipeline := pl }
  else
    let input_types := _get_dataset_type_names taskDef.inputs
    let output_types := _get_dataset_type_names taskDef.outputs
    let st1 := { st with all_connection_type_names := st.all_connection_type_names ∪ (input_types ∪ output_types) }
    let st2 :=
      if dataset_type_name ∈ output_types then
        { st1 with precursor_injection_task_labels := setAdd st1.precursor_injection_task_labels taskDef.label }
      else st1
    if 0 < (input_types ∩ st2.injected_types).card then
      let st3 := { st2 with injected_types := st2.injected_types ∪ output_types }
      (taskDef.inputs ++ taskDef.outputs).foldl (renameConnection pfx taskDef.label) st3
    else st2

/-- The initial propagation state (source lines 134-137): empty catalog,
injected set seeded with the dataset type name, no precursors. -/
def initState (dataset_type_name : String) (p : Pipeline) : PropState :=
  { pipeline := p
    all_connection_type_names := ∅
    injected_types := {dataset_type_name}
    precursor_injection_task_labels := []
    dynamic_warnings := [] }

/-- The Propagation Engine (source lines 134-176): fold the per-task step
over the tasks in their topological order. -/
def propagatePass (dataset_type_name pfx : String) (p : Pipeline) : PropState :=
  p.tasks.foldl (processTask dataset_type_name pfx) (initState dataset_type_name p)

/-- The Stub Resolver registry (source lines 184-206): known seed dataset
type names mapped to canonical injection pipeline locations. -/
def infer_injection_pipeline (dataset_type_name : String) : Option String :=
  match dataset_type_name with
  | "postISRCCD" => some "$SOURCE_INJECTION_DIR/pipelines/inject_exposure.yaml"
  | "icExp" | "calexp" => some "$SOURCE_INJECTION_DIR/pipelines/inject_visit.yaml"
  | "deepCoadd" | "deepCoadd_calexp" | "goodSeeingCoadd" =>
      some "$SOURCE_INJECTION_DIR/pipelines/inject_coadd.yaml"
  | _ => none

/-- Modelled from the spec: `pipeline.mergePipeline(pipeline2)` — a label
collision between the splice-in tasks and existing tasks is a fatal error;
otherwise tasks, subsets and overrides of the splice-in pipeline are
appended. -/
def mergePipeline (p p2 : Pipeline) : Except String Pipeline :=
  if p2.tasks.any (fun t => p.tasks.any fun u => u.label == t.label) then
    .error "Label collision while merging the injection pipeline."
  else
    .ok { tasks := p.tasks ++ p2.tasks
          subsets := p.subsets ++ p2.subsets
          overrides := p.overrides ++ p2.overrides }

/-- The inner subset-maintenance loop for one precursor label (source lines
231-233): add the injection task's label to every subset hosting the
precursor label. -/
def updateSubsetsForLabel (injection_label : String) (pl : Pipeline) (label : String) :
    Pipeline :=
  (findSubsetsWithLabel pl label).foldl
    (fun a subset => addLabelToSubset a subset injection_label) pl

/-- The subset-maintenance loop (source lines 230-233), folded over the
precursor labels (a Python set, modelled as its insertion-ordered list). -/
def updateSubsets (injection_label : String) (pre : List String) (pl : Pipeline) : Pipeline :=
  pre.foldl (updateSubsetsForLabel injection_label) pl

/-- Per-injection-task body of the merge loop (source lines 220-233):
rewire the boundary connections to the seed and the prefixed seed, then
optionally maintain subsets. -/
def mergeTaskStep (dataset_type_name pfx : String) (exclude_subsets : Bool)
    (pre : List String) (pl : Pipeline) (injection_taskDef : TaskDef) : Pipeline :=
  let pl1 := addConfigOverride pl injection_taskDef.label "connections.input_exposure"
    dataset_type_name
  let pl2 := addConfigOverride pl1 injection_taskDef.label "connections.output_exposure"
    (pfx ++ dataset_type_name)
  if exclude_subsets then pl2 else updateSubsets injection_taskDef.label pre pl2

/-- The Graph Merger (source lines 209-233): arity check, merge, boundary
rewiring and subset maintenance. -/
def mergeStep (dataset_type_name pfx : String) (exclude_subsets : Bool) (pre : List String)
    (p pipeline2 : Pipeline) : Except String Pipeline :=
  if pipeline2.tasks.length ≠ 1 then
    .error ("The injection pipeline contains " ++ toString pipeline2.tasks.length ++
      " tasks; only one task is allowed.")
  else
    match mergePipeline p pipeline2 with
    | .error e => .error e
    | .ok merged =>
        .ok (pipeline2.tasks.foldl
          (mergeTaskStep dataset_type_name pfx exclude_subsets pre) merged)

/-- `make_injection_pipeline` (source lines 40-236). File loading,
instrument overrides and logging are external collaborators and are not
modelled; `injection_pipeline` is the already-loaded splice-in pipeline,
if any (when none is supplied the source would load the stub named by
`infer_injection_pipeline`, an external file operation, and merges nothing
when the registry has no entry for the seed name). -/
def make_injection_pipeline (dataset_type_name : String) (reference_pipeline : Pipeline)
    (injection_pipeline : Option Pipeline) (exclude_subsets : Bool)
    (excluded_tasks : List String) (pfx : String) : Except String Pipeline :=
  let ex := excludePass reference_pipeline excluded_tasks
  let st := propagatePass dataset_type_name pfx ex.1
  if dataset_type_name ∉ st.all_connection_type_names then
    .error ("Dataset type '" ++ dataset_type_name ++ "' not found in the reference pipeline; " ++
      "no connection type edits to be made.")
  else
    match injection_pipeline with
    | some pipeline2 =>
        mergeStep dataset_type_name pfx exclude_subsets
          st.precursor_injection_task_labels st.pipeline pipeline2
    | none => .ok st.pipeline

/-! Concrete pipelines used to exercise the theorems below. The chain
`A → B → C` with dataset types `calexp → src → srcMatch` plus the sibling
`D` consuming `w` is the scenario of the specification. -/

def tskA : TaskDef := ⟨"A", false, "", [], [⟨"out_exposure", "calexp", true⟩]⟩

def tskB : TaskDef := ⟨"B", false, "", [⟨"in_exp", "calexp", true⟩], [⟨"out_src", "src", true⟩]⟩

def tskC : TaskDef := ⟨"C", false, "", [⟨"in_src", "src", true⟩], [⟨"out_match", "srcMatch", true⟩]⟩

def tskD : TaskDef := ⟨"D", false, "", [⟨"in_w", "w", true⟩], [⟨"out_v", "v", true⟩]⟩

def chainPipeline : Pipeline := ⟨[tskA, tskB, tskC, tskD], [], []⟩

/-- An analysis-style task (dynamically assigned connections). -/
def anlTask : TaskDef := ⟨"anl", true, "objectTableCore", [], []⟩

/-- An analysis-style task with declared connections carrying the seed. -/
def anlTask2 : TaskDef :=
  ⟨"anl2", true, "plotName", [⟨"in_cat", "catSeed", true⟩], [⟨"out_plot", "plotOut", true⟩]⟩

/-- A task marked for exclusion by default. -/
def exclTask : TaskDef :=
  ⟨"jointcal", false, "", [⟨"in_cal", "calexp", true⟩], [⟨"out_joint", "jointcalOut", true⟩]⟩

def injTask : TaskDef :=
  ⟨"inject_exposure", false, "", [⟨"in_raw", "rawish", true⟩], [⟨"out_raw", "rawOut", true⟩]⟩

def injPipeline : Pipeline := ⟨[injTask], [], []⟩

def twoTaskInjPipeline : Pipeline := ⟨[injTask, tskD], [], []⟩

def emptyInjPipeline : Pipeline := ⟨[], [], []⟩

def subsetPipeline : Pipeline :=
  ⟨[tskA, tskB], [⟨"step1", ["A", "B"]⟩, ⟨"step2", ["B"]⟩], []⟩

/-- A pipeline whose only non-analysis task after exclusion has names
`{w, v}`, together with an excluded task and a subset hosting it. -/
def mutPipeline : Pipeline := ⟨[exclTask, anlTask, tskD], [⟨"s1", ["jointcal"]⟩], []⟩

/-- A pipeline in which the seed `catSeed` occurs only in the bindings of
an analysis-style task. -/
def dynOnlyPipeline : Pipeline := ⟨[anlTask2, tskD], [], []⟩

/-- The propagation state after visiting `A` of the chain. -/
def stAfterA : PropState :=
  List.foldl (processTask "calexp" "injected_") (initState "calexp" chainPipeline) [tskA]

/-- The propagation state after visiting `A`, `B` of the chain. -/
def stAfterAB : PropState :=
  List.foldl (processTask "calexp" "injected_") (initState "calexp" chainPipeline) [tskA, tskB]

/-- The propagation state after visiting `A`, `B`, `C` of the chain. -/
def stAfterABC : PropState :=
  List.foldl (processTask "calexp" "injected_")
    (initState "calexp" chainPipeline) [tskA, tskB, tskC]

/-- The merged pipeline produced by splicing `injPipeline` into
`subsetPipeline` with precursor set `{A}`. -/
def mergedWitness : Pipeline :=
  ⟨[tskA, tskB, injTask],
   [⟨"step1", ["A", "B", "inject_exposure"]⟩, ⟨"step2", ["B"]⟩],
   [("inject_exposure", "connections.input_exposure", "calexp"),
    ("inject_exposure", "connections.output_exposure", "injected_calexp")]⟩

/-- The pointwise effect on one subset of folding `addLabelToSubset` over a
list of subset names (proof-support definition). -/
def updSubFold (names : List String) (label : String) (s : Subset) : Subset :=
  names.foldl (fun s nm => updateSubsetLabels nm label s) s

/-! Helper lemmas. -/

theorem renameConnection_injected_types (pfx lab : String) (s : PropState) (c : Connection) :
    (renameConnection pfx lab s c).injected_types = s.injected_types := by
  unfold renameConnection
  split_ifs <;> rfl

theorem renameFold_injected_types (pfx lab : String) :
    ∀ (L : List Connection) (s : PropState),
      (L.foldl (renameConnection pfx lab) s).injected_types = s.injected_types := by
  intro L
  induction L with
  | nil => intro s; rfl
  | cons c L ih =>
      intro s
      rw [List.foldl_cons, ih, renameConnection_injected_types]

theorem processTask_injected_mono (seed pfx : String) (st : PropState) (t : TaskDef) :
    st.injected_types ⊆ (processTask seed pfx st t).injected_types := by
  unfold processTask
  cases hA : t.isAnalysis with
  | true => simp
  | false =>
      simp only [Bool.false_eq_true, if_false]
      split_ifs with h1 h2 h3
      · rw [renameFold_injected_types]
        exact Finset.subset_union_left
      · exact Finset.Subset.refl _
      · rw [renameFold_injected_types]
        exact Finset.subset_union_left
      · exact Finset.Subset.refl _

theorem foldl_injected_mono (seed pfx : String) :
    ∀ (ts : List TaskDef) (st : PropState),
      st.injected_types ⊆ (ts.foldl (processTask seed pfx) st).injected_types := by
  intro ts
  induction ts with
  | nil => intro st; exact Finset.Subset.refl _
  | cons t ts ih =>
      intro st
      rw [List.foldl_cons]
      exact (processTask_injected_mono seed pfx st t).trans (ih _)

end SourceInjection

namespace SourceInjection

/-- C6. During a single propagation pass the injected-type set never
shrinks: the set held after visiting any topological prefix of the tasks
is a subset of the set held after any longer prefix (in particular after
the full pass), and it always contains the seed dataset type name. -/
theorem injected_types_monotone (seed pfx : String) (p : Pipeline) (l1 l2 : List TaskDef)
    (h : p.tasks = l1 ++ l2) :
    (l1.foldl (processTask seed pfx) (initState seed p)).injected_types ⊆
      (propagatePass seed pfx p).injected_types ∧
    seed ∈ (l1.foldl (processTask seed pfx) (initState seed p)).injected_types := by
  constructor
  · unfold propagatePass
    rw [h, List.foldl_append]
    exact foldl_injected_mono seed pfx l2 _
  · refine foldl_injected_mono seed pfx l1 (initState seed p) ?_
    simp [initState]

/-- Witness for C6 on the chain pipeline, split after `A, B`. -/
theorem injected_types_monotone_witness :
    chainPipeline.tasks = [tskA, tskB] ++ [tskC, tskD] ∧
    (([tskA, tskB].foldl (processTask "calexp" "injected_")
        (initState "calexp" chainPipeline)).injected_types ⊆
      (propagatePass "calexp" "injected_" chainPipeline).injected_types ∧
    "calexp" ∈ ([tskA, tskB].foldl (processTask "calexp" "injected_")
        (initState "calexp" chainPipeline)).injected_types) :=
  ⟨by decide,
    injected_types_monotone "calexp" "injected_" chainPipeline [tskA, tskB] [tskC, tskD]
      (by decide)⟩

/-- C8. A task flagged as having dynamically assigned connections (an
Analysis Tools task) receives exactly one config override, prepending the
rename prefix to its declared `connections.outputName` value, and every
other component of the propagation state is left untouched — no catalog
entries, no precursor recording, no per-field renames — regardless of
whether the task is downstream of the seed. -/
theorem analysis_task_single_override (seed pfx : String) (st : PropState) (t : TaskDef)
    (hA : t.isAnalysis = true) :
    (processTask seed pfx st t).pipeline.overrides =
      st.pipeline.overrides ++ [(t.label, "connections.outputName", pfx ++ t.outputName)] ∧
    (processTask seed pfx st t).pipeline.tasks = st.pipeline.tasks ∧
    (processTask seed pfx st t).pipeline.subsets = st.pipeline.subsets ∧
    (processTask seed pfx st t).all_connection_type_names = st.all_connection_type_names ∧
    (processTask seed pfx st t).injected_types = st.injected_types ∧
    (processTask seed pfx st t).precursor_injection_task_labels =
      st.precursor_injection_task_labels ∧
    (processTask seed pfx st t).dynamic_warnings = st.dynamic_warnings := by
  simp [processTask, hA, addConfigOverride]

/-- Witness for C8 on a concrete analysis task. -/
theorem analysis_task_single_override_witness :
    anlTask.isAnalysis = true ∧
    ((processTask "calexp" "injected_" (initState "calexp" chainPipeline) anlTask).pipeline.overrides =
      (initState "calexp" chainPipeline).pipeline.overrides ++
        [(anlTask.label, "connections.outputName", "injected_" ++ anlTask.outputName)] ∧
    (processTask "calexp" "injected_" (initState "calexp" chainPipeline) anlTask).pipeline.tasks =
      (initState "calexp" chainPipeline).pipeline.tasks ∧
    (processTask "calexp" "injected_" (initState "calexp" chainPipeline) anlTask).pipeline.subsets =
      (initState "calexp" chainPipeline).pipeline.subsets ∧
    (processTask "calexp" "injected_" (initState "calexp" chainPipeline) anlTask).all_connection_type_names =
      (initState "calexp" chainPipeline).all_connection_type_names ∧
    (processTask "calexp" "injected_" (initState "calexp" chainPipeline) anlTask).injected_types =
      (initState "calexp" chainPipeline).injected_types ∧
    (processTask "calexp" "injected_" (initState "calexp" chainPipeline) anlTask).precursor_injection_task_labels =
      (initState "calexp" chainPipeline).precursor_injection_task_labels ∧
    (processTask "calexp" "injected_" (initState "calexp" chainPipeline) anlTask).dynamic_warnings =
      (initState "calexp" chainPipeline).dynamic_warnings) :=
  ⟨rfl, analysis_task_single_override "calexp" "injected_"
    (initState "calexp" chainPipeline) anlTask rfl⟩

theorem excludeStep_invariant (acc : Pipeline × List String) (x : String)
    (h : ∀ s ∈ acc.1.subsets, ∀ l ∈ s.labels, ∃ t ∈ acc.1.tasks, t.label = l) :
    ∀ s ∈ (excludeStep acc x).1.subsets, ∀ l ∈ s.labels,
      ∃ t ∈ (excludeStep acc x).1.tasks, t.label = l := by
  unfold excludeStep removeLabelFromSubsets
  dsimp only
  split_ifs with hfound
  · intro s hs l hl
    simp only [List.mem_map] at hs
    obtain ⟨s0, hs0, rfl⟩ := hs
    simp only [List.mem_filter, bne_iff_ne, decide_eq_true_eq] at hl
    obtain ⟨hl0, hlx⟩ := hl
    obtain ⟨t, ht, hlab⟩ := h s0 hs0 l hl0
    refine ⟨t, ?_, hlab⟩
    simp only [List.mem_filter, bne_iff_ne, decide_eq_true_eq]
    exact ⟨ht, by rw [hlab]; exact hlx⟩
  · intro s hs l hl
    simp only [List.mem_map] at hs
    obtain ⟨s0, hs0, rfl⟩ := hs
    simp only [List.mem_filter, bne_iff_ne, decide_eq_true_eq] at hl
    exact h s0 hs0 l hl.1

theorem excludeFold_invariant :
    ∀ (labels : List String) (acc : Pipeline × List String),
      (∀ s ∈ acc.1.subsets, ∀ l ∈ s.labels, ∃ t ∈ acc.1.tasks, t.label = l) →
      ∀ s ∈ (labels.foldl excludeStep acc).1.subsets, ∀ l ∈ s.labels,
        ∃ t ∈ (labels.foldl excludeStep acc).1.tasks, t.label = l := by
  intro labels
  induction labels with
  | nil => intro acc h; exact h
  | cons x labels ih =>
      intro acc h
      rw [List.foldl_cons]
      exact ih _ (excludeStep_invariant acc x h)

/-- C7. If every label referenced by a subset names an existing task, then
after the Exclusion Pass this is still so: each excluded label is removed
from every subset referencing it before its task is removed, so no subset
of the resulting pipeline references a label absent from its task set. -/
theorem exclusion_restores_subset_invariant (p : Pipeline) (excluded : List String)
    (h : ∀ s ∈ p.subsets, ∀ l ∈ s.labels, ∃ t ∈ p.tasks, t.label = l) :
    ∀ s ∈ (excludePass p excluded).1.subsets, ∀ l ∈ s.labels,
      ∃ t ∈ (excludePass p excluded).1.tasks, t.label = l :=
  excludeFold_invariant excluded (p, []) h

/-- Witness for C7: excluding `A` from a pipeline whose subsets reference
`A` and `B`. -/
theorem exclusion_restores_subset_invariant_witness :
    (∀ s ∈ subsetPipeline.subsets, ∀ l ∈ s.labels, ∃ t ∈ subsetPipeline.tasks, t.label = l) ∧
    (∀ s ∈ (excludePass subsetPipeline ["A"]).1.subsets, ∀ l ∈ s.labels,
      ∃ t ∈ (excludePass subsetPipeline ["A"]).1.tasks, t.label = l) :=
  ⟨by decide, exclusion_restores_subset_invariant subsetPipeline ["A"] (by decide)⟩

/-- C4. The merge step fails with the fatal arity error whenever the
splice-in pipeline holds fewer or more than one task, and proceeds to a
merged pipeline when it holds exactly one task (whose label does not
collide with an existing task's label). -/
theorem merge_arity_check (seed pfx : String) (es : Bool) (pre : List String)
    (p p2 : Pipeline) :
    (p2.tasks.length ≠ 1 →
      mergeStep seed pfx es pre p p2 =
        .error ("The injection pipeline contains " ++ toString p2.tasks.length ++
          " tasks; only one task is allowed.")) ∧
    (p2.tasks.length = 1 → (∀ t ∈ p2.tasks, ∀ u ∈ p.tasks, u.label ≠ t.label) →
      ∃ q, mergeStep seed pfx es pre p p2 = .ok q) := by
  constructor
  · intro h
    simp [mergeStep, h]
  · intro h hc
    have hcol : (p2.tasks.any fun t => p.tasks.any fun u => u.label == t.label) = false := by
      simp only [List.any_eq_false]
      intro t ht hany
      rw [List.any_eq_true] at hany
      obtain ⟨u, hu, hbeq⟩ := hany
      exact hc t ht u hu (beq_iff_eq.mp hbeq)
    exact ⟨p2.tasks.foldl (mergeTaskStep seed pfx es pre)
        { tasks := p.tasks ++ p2.tasks, subsets := p.subsets ++ p2.subsets,
          overrides := p.overrides ++ p2.overrides },
      by simp [mergeStep, h, mergePipeline, hcol]⟩

/-- Witness for C4: a two-task and a zero-task splice-in fail, a one-task
splice-in succeeds. -/
theorem merge_arity_check_witness :
    (twoTaskInjPipeline.tasks.length ≠ 1 ∧
      mergeStep "calexp" "injected_" false [] chainPipeline twoTaskInjPipeline =
        .error ("The injection pipeline contains " ++ toString twoTaskInjPipeline.tasks.length ++
          " tasks; only one task is allowed.")) ∧
    (emptyInjPipeline.tasks.length ≠ 1 ∧
      mergeStep "calexp" "injected_" false [] chainPipeline emptyInjPipeline =
        .error ("The injection pipeline contains " ++ toString emptyInjPipeline.tasks.length ++
          " tasks; only one task is allowed.")) ∧
    (injPipeline.tasks.length = 1 ∧
      ∃ q, mergeStep "calexp" "injected_" false [] chainPipeline injPipeline = .ok q) :=
  ⟨⟨by decide, (merge_arity_check "calexp" "injected_" false [] chainPipeline
      twoTaskInjPipeline).1 (by decide)⟩,
   ⟨by decide, (merge_arity_check "calexp" "injected_" false [] chainPipeline
      emptyInjPipeline).1 (by decide)⟩,
   ⟨by decide, (merge_arity_check "calexp" "injected_" false [] chainPipeline
      injPipeline).2 (by decide) (by decide)⟩⟩

theorem addFold_overrides (lab : String) :
    ∀ (names : List String) (pl : Pipeline),
      (names.foldl (fun a subset => addLabelToSubset a subset lab) pl).overrides =
        pl.overrides := by
  intro names
  induction names with
  | nil => intro pl; rfl
  | cons nm names ih =>
      intro pl
      rw [List.foldl_cons, ih]
      rfl

theorem updateSubsetsForLabel_overrides (lab : String) (pl : Pipeline) (x : String) :
    (updateSubsetsForLabel lab pl x).overrides = pl.overrides :=
  addFold_overrides lab (findSubsetsWithLabel pl x) pl

theorem updateSubsets_overrides (lab : String) (pre : List String) (pl : Pipeline) :
    (updateSubsets lab pre pl).overrides = pl.overrides := by
  unfold updateSubsets
  induction pre generalizing pl with
  | nil => rfl
  | cons x names ih =>
      rw [List.foldl_cons, ih, updateSubsetsForLabel_overrides]

/-- Inversion of a successful merge step: the splice-in pipeline holds
exactly one task, the raw merge succeeded, and the result is the one
per-task rewiring step applied to the merged pipeline. -/
theorem mergeStep_ok_inv (seed pfx : String) (es : Bool) (pre : List String)
    (p p2 q : Pipeline) (hok : mergeStep seed pfx es pre p p2 = .ok q) :
    ∃ t0 merged, p2.tasks = [t0] ∧ mergePipeline p p2 = .ok merged ∧
      q = mergeTaskStep seed pfx es pre merged t0 := by
  unfold mergeStep at hok
  split_ifs at hok with hlen
  have hlen1 : p2.tasks.length = 1 := not_not.mp hlen
  obtain ⟨t0, ht0⟩ := List.length_eq_one.mp hlen1
  cases hm : mergePipeline p p2 with
  | error e => rw [hm] at hok; exact absurd hok (by simp)
  | ok merged =>
      rw [hm] at hok
      simp only [Except.ok.injEq] at hok
      refine ⟨t0, merged, ht0, rfl, ?_⟩
      rw [← hok, ht0]
      rfl

theorem filterOv_concat_hit (l : List (String × String × String)) (lbl k v : String) :
    ((l ++ [(lbl, k, v)]).filter fun o => o.1 == lbl && o.2.1 == k) =
      (l.filter fun o => o.1 == lbl && o.2.1 == k) ++ [(lbl, k, v)] := by
  rw [List.filter_append]
  simp

theorem filterOv_concat_miss (l : List (String × String × String)) (lbl k lbl' k' v : String)
    (h : ¬(lbl' = lbl ∧ k' = k)) :
    ((l ++ [(lbl', k', v)]).filter fun o => o.1 == lbl && o.2.1 == k) =
      l.filter fun o => o.1 == lbl && o.2.1 == k := by
  rw [List.filter_append]
  have hfalse : ((lbl' == lbl && k' == k) : Bool) = false := by
    rcases not_and_or.mp h with h1 | h1
    · rw [beq_eq_false_iff_ne.mpr h1, Bool.false_and]
    · rw [beq_eq_false_iff_ne.mpr h1, Bool.and_false]
  simp [hfalse]

theorem getLast?_map_concat (l : List (String × String × String))
    (x : String × String × String) :
    ((l ++ [x]).map fun o => o.2.2).getLast? = some x.2.2 := by
  rw [List.map_append]
  exact List.getLast?_concat _

/-- C3. After a successful merge, the splice-in task's source boundary
binding (`connections.input_exposure`) resolves, through the override
record, to the literal seed dataset type name, and its result boundary
binding (`connections.output_exposure`) resolves to the prefixed seed —
independently of the names originally declared on the splice-in task. -/
theorem merge_boundary_rewrite (seed pfx : String) (es : Bool) (pre : List String)
    (p p2 q : Pipeline) (t : TaskDef)
    (hok : mergeStep seed pfx es pre p p2 = .ok q) (ht : t ∈ p2.tasks) :
    getOverride q t.label "connections.input_exposure" = some seed ∧
    getOverride q t.label "connections.output_exposure" = some (pfx ++ seed) := by
  obtain ⟨t0, merged, htasks, hm, hq⟩ := mergeStep_ok_inv seed pfx es pre p p2 q hok
  rw [htasks] at ht
  simp only [List.mem_singleton] at ht
  subst ht
  have hov : q.overrides =
      (merged.overrides ++ [(t.label, "connections.input_exposure", seed)]) ++
        [(t.label, "connections.output_exposure", pfx ++ seed)] := by
    rw [hq]
    unfold mergeTaskStep
    dsimp only
    split_ifs
    · rfl
    · rw [updateSubsets_overrides]
      rfl
  constructor
  · unfold getOverride
    rw [hov, filterOv_concat_miss _ _ _ _ _ _ (by simp), filterOv_concat_hit,
      getLast?_map_concat]
  · unfold getOverride
    rw [hov, filterOv_concat_hit, getLast?_map_concat]

/-- Witness for C3 on a concrete merge. -/
theorem merge_boundary_rewrite_witness :
    mergeStep "calexp" "injected_" false ["A"] subsetPipeline injPipeline =
        .ok mergedWitness ∧
    injTask ∈ injPipeline.tasks ∧
    (getOverride mergedWitness injTask.label "connections.input_exposure" = some "calexp" ∧
     getOverride mergedWitness injTask.label "connections.output_exposure" =
       some ("injected_" ++ "calexp")) :=
  ⟨by rfl, by decide,
    merge_boundary_rewrite "calexp" "injected_" false ["A"] subsetPipeline injPipeline
      mergedWitness injTask (by rfl) (by decide)⟩

theorem renameConnection_overrides_mono (pfx lab : String) (s : PropState) (c : Connection)
    (o : String × String × String) (ho : o ∈ s.pipeline.overrides) :
    o ∈ (renameConnection pfx lab s c).pipeline.overrides := by
  unfold renameConnection addConfigOverride
  split_ifs
  · exact List.mem_append_left _ ho
  · exact ho
  · exact ho

theorem renameFold_overrides_mono (pfx lab : String) :
    ∀ (L : List Connection) (s : PropState) (o : String × String × String),
      o ∈ s.pipeline.overrides →
      o ∈ (L.foldl (renameConnection pfx lab) s).pipeline.overrides := by
  intro L
  induction L with
  | nil => intro s o ho; exact ho
  | cons c L ih =>
      intro s o ho
      rw [List.foldl_cons]
      exact ih _ _ (renameConnection_overrides_mono pfx lab s c o ho)

theorem renameFold_hit (pfx lab : String) :
    ∀ (L : List Connection) (s : PropState) (c : Connection),
      c ∈ L → c.isStatic = true → c.name ∈ s.injected_types →
      (lab, "connections." ++ c.field, pfx ++ c.name) ∈
        (L.foldl (renameConnection pfx lab) s).pipeline.overrides := by
  intro L
  induction L with
  | nil => intro s c hc; cases hc
  | cons d L ih =>
      intro s c hc hs hn
      rw [List.foldl_cons]
      rcases List.mem_cons.mp hc with h | hcL
      · subst h
        apply renameFold_overrides_mono
        simp [renameConnection, hs, hn, addConfigOverride]
      · apply ih _ _ hcL hs
        rw [renameConnection_injected_types]
        exact hn

/-- C1. For a task visited during propagation whose connections are
statically enumerable, its outputs are renamed with the prefix exactly
when some effective input of the task lies in the injected-type set held
at the moment the task is visited: when the intersection is non-empty an
override renaming every output field is recorded, and when it is empty the
visit records no override at all. -/
theorem propagation_renames_outputs_iff_input_injected (seed pfx : String) (st : PropState)
    (t : TaskDef) (hA : t.isAnalysis = false)
    (hstat : ∀ c ∈ t.outputs, c.isStatic = true) :
    (0 < ((_get_dataset_type_names t.inputs) ∩ st.injected_types).card →
      ∀ c ∈ t.outputs,
        (t.label, "connections." ++ c.field, pfx ++ c.name) ∈
          (processTask seed pfx st t).pipeline.overrides) ∧
    (((_get_dataset_type_names t.inputs) ∩ st.injected_types).card = 0 →
      (processTask seed pfx st t).pipeline.overrides = st.pipeline.overrides) := by
  unfold processTask
  simp only [hA, Bool.false_eq_true, if_false]
  split_ifs with hpre hcard hcard
  · constructor
    · intro _ c hc
      refine renameFold_hit pfx t.label _ _ c (List.mem_append_right _ hc) (hstat c hc) ?_
      exact Finset.mem_union_right _ (List.mem_toFinset.mpr (List.mem_map_of_mem _ hc))
    · intro h0
      rw [h0] at hcard
      exact absurd hcard (lt_irrefl 0)
  · constructor
    · intro hpos
      exact absurd hpos hcard
    · intro _
      rfl
  · constructor
    · intro _ c hc
      refine renameFold_hit pfx t.label _ _ c (List.mem_append_right _ hc) (hstat c hc) ?_
      exact Finset.mem_union_right _ (List.mem_toFinset.mpr (List.mem_map_of_mem _ hc))
    · intro h0
      rw [h0] at hcard
      exact absurd hcard (lt_irrefl 0)
  · constructor
    · intro hpos
      exact absurd hpos hcard
    · intro _
      rfl

/-- Witness for C1 realising the chain scenario: with seed `calexp`, task
`B` (consuming `calexp`) has its output `src` renamed, task `C` (consuming
`src`, injected by then) has its output `srcMatch` renamed, and the
sibling task `D` (consuming the unrelated `w`) records no override. -/
theorem propagation_chain_witness :
    (0 < ((_get_dataset_type_names tskB.inputs) ∩ stAfterA.injected_types).card ∧
      ∀ c ∈ tskB.outputs,
        (tskB.label, "connections." ++ c.field, "injected_" ++ c.name) ∈
          (processTask "calexp" "injected_" stAfterA tskB).pipeline.overrides) ∧
    (0 < ((_get_dataset_type_names tskC.inputs) ∩ stAfterAB.injected_types).card ∧
      ∀ c ∈ tskC.outputs,
        (tskC.label, "connections." ++ c.field, "injected_" ++ c.name) ∈
          (processTask "calexp" "injected_" stAfterAB tskC).pipeline.overrides) ∧
    (((_get_dataset_type_names tskD.inputs) ∩ stAfterABC.injected_types).card = 0 ∧
      (processTask "calexp" "injected_" stAfterABC tskD).pipeline.overrides =
        stAfterABC.pipeline.overrides) :=
  ⟨⟨by decide, (propagation_renames_outputs_iff_input_injected "calexp" "injected_"
      stAfterA tskB rfl (by decide)).1 (by decide)⟩,
   ⟨by decide, (propagation_renames_outputs_iff_input_injected "calexp" "injected_"
      stAfterAB tskC rfl (by decide)).1 (by decide)⟩,
   ⟨by decide, (propagation_renames_outputs_iff_input_injected "calexp" "injected_"
      stAfterABC tskD rfl (by decide)).2 (by decide)⟩⟩

theorem any_label_filter_ne (x lab : String) (h : lab ≠ x) :
    ∀ (ts : List TaskDef),
      ((ts.filter fun t => t.label != x).any fun t => t.label == lab) =
        (ts.any fun t => t.label == lab) := by
  intro ts
  rw [List.any_filter]
  induction ts with
  | nil => rfl
  | cons t ts ih =>
      rw [List.any_cons, List.any_cons, ih]
      by_cases hlab : t.label = lab
      · have h1 : (t.label != x) = true := by
          rw [bne_iff_ne]
          rw [hlab]
          exact h
        rw [h1, Bool.true_and]
      · have h2 : (t.label == lab) = false := beq_eq_false_iff_ne.mpr hlab
        rw [h2, Bool.and_false]

theorem excludeStep_snd_found (acc : Pipeline × List String) (x : String)
    (h : (acc.1.tasks.any fun t => t.label == x) = true) :
    (excludeStep acc x).2 = acc.2 := by
  unfold excludeStep removeLabelFromSubsets
  dsimp only
  rw [if_pos h]

theorem excludeStep_snd_not_found (acc : Pipeline × List String) (x : String)
    (h : (acc.1.tasks.any fun t => t.label == x) = false) :
    (excludeStep acc x).2 = acc.2 ++ [x] := by
  unfold excludeStep removeLabelFromSubsets
  dsimp only
  rw [if_neg]
  rw [h]
  exact Bool.false_ne_true

theorem excludeStep_any_other (acc : Pipeline × List String) (x lab : String) (h : lab ≠ x) :
    ((excludeStep acc x).1.tasks.any fun t => t.label == lab) =
      (acc.1.tasks.any fun t => t.label == lab) := by
  unfold excludeStep removeLabelFromSubsets
  dsimp only
  split_ifs with hfound
  · exact any_label_filter_ne x lab h acc.1.tasks
  · rfl

theorem excludeFold_not_found (p0 : Pipeline) :
    ∀ (l : List String) (acc : Pipeline × List String),
      l.Nodup →
      (∀ lab ∈ l, (acc.1.tasks.any fun t => t.label == lab) =
        (p0.tasks.any fun t => t.label == lab)) →
      (l.foldl excludeStep acc).2 =
        acc.2 ++ l.filter fun lab => !(p0.tasks.any fun t => t.label == lab) := by
  intro l
  induction l with
  | nil => intro acc _ _; simp
  | cons x l ih =>
      intro acc hnd hinv
      rw [List.foldl_cons, List.filter_cons]
      have hx := hinv x (List.mem_cons_self x l)
      have htail : ∀ lab ∈ l, ((excludeStep acc x).1.tasks.any fun t => t.label == lab) =
          (p0.tasks.any fun t => t.label == lab) := by
        intro lab hlab
        have hne : lab ≠ x := by
          intro hcontra
          subst hcontra
          exact (List.nodup_cons.mp hnd).1 hlab
        rw [excludeStep_any_other acc x lab hne]
        exact hinv lab (List.mem_cons_of_mem x hlab)
      have hrec := ih (excludeStep acc x) (List.nodup_cons.mp hnd).2 htail
      cases hfound : (acc.1.tasks.any fun t => t.label == x) with
      | true =>
          rw [hrec, excludeStep_snd_found acc x hfound]
          rw [← hx, hfound]
          simp
      | false =>
          rw [hrec, excludeStep_snd_not_found acc x hfound]
          rw [← hx, hfound]
          simp

theorem exclusionWarning_isSome (nf : List String) :
    (exclusionWarning nf).isSome ↔ nf ≠ [] := by
  by_cases h : 0 < nf.length
  · unfold exclusionWarning
    rw [if_pos h]
    exact iff_of_true rfl (List.ne_nil_of_length_pos h)
  · unfold exclusionWarning
    rw [if_neg h]
    refine iff_of_false (by simp) ?_
    intro hne
    exact hne (List.length_eq_zero.mp (Nat.eq_zero_of_not_pos h))

theorem exclusionWarning_grammar (nf : List String) (msg : String)
    (h : exclusionWarning nf = some msg) :
    (msg.data.take 5 = "Tasks".data ↔ nf.length ≠ 1) := by
  unfold exclusionWarning at h
  by_cases hpos : 0 < nf.length
  · rw [if_pos hpos] at h
    dsimp only at h
    simp only [Option.some.injEq] at h
    by_cases h1 : nf.length = 1
    · rw [if_pos h1] at h
      rw [← h]
      refine iff_of_false ?_ (by simpa using h1)
      rw [String.data_append, String.data_append, String.data_append, List.append_assoc]
      rw [List.take_append_of_le_length (by decide)]
      decide
    · rw [if_neg h1] at h
      rw [← h]
      refine iff_of_true ?_ h1
      rw [String.data_append, String.data_append, String.data_append, List.append_assoc]
      rw [List.take_append_of_le_length (by decide)]
      decide
  · rw [if_neg hpos] at h
    exact absurd h (by simp)

/-- C9. Excluded labels with no matching task never abort the pass: they
are exactly the requested labels absent from the reference pipeline's
task set, collected into the not-found list; the batched warning exists
precisely when that list is non-empty, and its leading word is the plural
"Tasks" exactly when more than one label is missing (singular "Task" for
exactly one). -/
theorem exclusion_not_found_warning (p : Pipeline) (excluded : List String)
    (hnd : excluded.Nodup) :
    (excludePass p excluded).2 =
      excluded.filter (fun lab => !(p.tasks.any fun t => t.label == lab)) ∧
    ((exclusionWarning (excludePass p excluded).2).isSome ↔
      (excludePass p excluded).2 ≠ []) ∧
    (∀ msg, exclusionWarning (excludePass p excluded).2 = some msg →
      (msg.data.take 5 = "Tasks".data ↔ (excludePass p excluded).2.length ≠ 1)) := by
  refine ⟨?_, exclusionWarning_isSome _, fun msg hm => exclusionWarning_grammar _ msg hm⟩
  have hfold := excludeFold_not_found p excluded (p, []) hnd (fun lab _ => rfl)
  unfold excludePass
  rw [hfold]
  simp

/-- Witness for C9: excluding one existing and two missing labels. -/
theorem exclusion_not_found_warning_witness :
    (["jointcal", "nope1", "nope2"] : List String).Nodup ∧
    ((excludePass mutPipeline ["jointcal", "nope1", "nope2"]).2 =
      (["jointcal", "nope1", "nope2"].filter
        (fun lab => !(mutPipeline.tasks.any fun t => t.label == lab))) ∧
    ((exclusionWarning (excludePass mutPipeline ["jointcal", "nope1", "nope2"]).2).isSome ↔
      (excludePass mutPipeline ["jointcal", "nope1", "nope2"]).2 ≠ []) ∧
    (∀ msg, exclusionWarning (excludePass mutPipeline ["jointcal", "nope1", "nope2"]).2 =
        some msg →
      (msg.data.take 5 = "Tasks".data ↔
        (excludePass mutPipeline ["jointcal", "nope1", "nope2"]).2.length ≠ 1))) :=
  ⟨by decide, exclusion_not_found_warning mutPipeline ["jointcal", "nope1", "nope2"]
    (by decide)⟩

theorem processTask_analysis (seed pfx : String) (st : PropState) (t : TaskDef)
    (hA : t.isAnalysis = true) :
    processTask seed pfx st t =
      { st with pipeline := addConfigOverride st.pipeline t.label "connections.outputName" (pfx ++ t.outputName) } := by
  simp [processTask, hA]

theorem excludeStep_pipeline_overrides (acc : Pipeline × List String) (x : String) :
    (excludeStep acc x).1.overrides = acc.1.overrides := by
  unfold excludeStep removeLabelFromSubsets
  dsimp only
  split_ifs <;> rfl

theorem excludeFold_pipeline_overrides :
    ∀ (l : List String) (acc : Pipeline × List String),
      (l.foldl excludeStep acc).1.overrides = acc.1.overrides := by
  intro l
  induction l with
  | nil => intro acc; rfl
  | cons x l ih =>
      intro acc
      rw [List.foldl_cons, ih, excludeStep_pipeline_overrides]

/-- When the seed does not occur among the connection names of any
statically-analysed task in the list, propagation leaves the injected set
at its singleton seed, observes the seed nowhere, records no precursor,
and every override it applies is a dynamic-task `outputName` override. -/
theorem propagate_no_reach (seed pfx : String) :
    ∀ (ts : List TaskDef) (st : PropState),
      (∀ t ∈ ts, t.isAnalysis = false →
        seed ∉ _get_dataset_type_names t.inputs ∪ _get_dataset_type_names t.outputs) →
      st.injected_types = {seed} →
      ((ts.foldl (processTask seed pfx) st).injected_types = {seed} ∧
       (seed ∉ st.all_connection_type_names →
         seed ∉ (ts.foldl (processTask seed pfx) st).all_connection_type_names) ∧
       (ts.foldl (processTask seed pfx) st).precursor_injection_task_labels =
         st.precursor_injection_task_labels ∧
       (∀ o ∈ (ts.foldl (processTask seed pfx) st).pipeline.overrides,
         o ∈ st.pipeline.overrides ∨ o.2.1 = "connections.outputName")) := by
  intro ts
  induction ts with
  | nil => intro st _ hinj; exact ⟨hinj, fun hn => hn, rfl, fun o ho => Or.inl ho⟩
  | cons t ts ih =>
      intro st h hinj
      rw [List.foldl_cons]
      cases hA : t.isAnalysis with
      | true =>
          rw [processTask_analysis seed pfx st t hA]
          have hrec := ih
            { st with pipeline := addConfigOverride st.pipeline t.label "connections.outputName" (pfx ++ t.outputName) }
            (fun u hu => h u (List.mem_cons_of_mem _ hu)) hinj
          refine ⟨hrec.1, fun hn => hrec.2.1 hn, hrec.2.2.1, ?_⟩
          intro o ho
          rcases hrec.2.2.2 o ho with h1 | h1
          · rcases List.mem_append.mp h1 with h2 | h2
            · exact Or.inl h2
            · simp only [List.mem_singleton] at h2
              exact Or.inr (by rw [h2])
          · exact Or.inr h1
      | false =>
          have hna := h t (List.mem_cons_self t ts) hA
          have hseedin : seed ∉ _get_dataset_type_names t.inputs :=
            fun hc => hna (Finset.mem_union_left _ hc)
          have hseedout : seed ∉ _get_dataset_type_names t.outputs :=
            fun hc => hna (Finset.mem_union_right _ hc)
          have hstep : processTask seed pfx st t =
              { st with all_connection_type_names := st.all_connection_type_names ∪ (_get_dataset_type_names t.inputs ∪ _get_dataset_type_names t.outputs) } := by
            unfold processTask
            simp only [hA, Bool.false_eq_true, if_false]
            rw [if_neg hseedout, if_neg]
            rw [hinj, Finset.inter_singleton_of_not_mem hseedin]
            simp
          rw [hstep]
          have hrec := ih
            { st with all_connection_type_names := st.all_connection_type_names ∪ (_get_dataset_type_names t.inputs ∪ _get_dataset_type_names t.outputs) }
            (fun u hu => h u (List.mem_cons_of_mem _ hu)) hinj
          refine ⟨hrec.1, ?_, hrec.2.2.1, fun o ho => hrec.2.2.2 o ho⟩
          intro hn
          apply hrec.2.1
          intro hc
          rcases Finset.mem_union.mp hc with h1 | h1
          · exact hn h1
          · exact hna h1

/-- C2 counterexample. On a pipeline holding a task excluded by request,
an analysis-style task and a task with names `{w, v}`, seeding on the
absent name `x` produces the fatal not-found error, yet the pipeline state
at the moment of the failure is already mutated (the excluded task was
removed, its subset entry dropped, and the analysis task's `outputName`
override recorded) — so the original pipeline is not left unmutated. -/
theorem existence_check_mutation_counterexample :
    make_injection_pipeline "x" mutPipeline none false ["jointcal"] "injected_" =
      .error ("Dataset type '" ++ "x" ++ "' not found in the reference pipeline; " ++
        "no connection type edits to be made.") ∧
    (propagatePass "x" "injected_" (excludePass mutPipeline ["jointcal"]).1).pipeline ≠
      mutPipeline :=
  ⟨by rfl, by decide⟩

/-- C2 (amended). If after the exclusion pass the seed name appears in no
statically-analysed task's connection names, `make_injection_pipeline`
fails with the fatal not-found error, and the propagation pass applies no
connection-rename override: every override present at the failure point is
either one of the original pipeline or a dynamic-task (analysis)
`outputName` override. Exclusion-pass task removals and dynamic-task
overrides may however already have mutated the pipeline. -/
theorem existence_check_error_no_rename_overrides (seed pfx : String) (p : Pipeline)
    (injp : Option Pipeline) (es : Bool) (excluded : List String)
    (h : ∀ t ∈ (excludePass p excluded).1.tasks, t.isAnalysis = false →
      seed ∉ _get_dataset_type_names t.inputs ∪ _get_dataset_type_names t.outputs) :
    make_injection_pipeline seed p injp es excluded pfx =
      .error ("Dataset type '" ++ seed ++ "' not found in the reference pipeline; " ++
        "no connection type edits to be made.") ∧
    ∀ o ∈ (propagatePass seed pfx (excludePass p excluded).1).pipeline.overrides,
      o ∈ p.overrides ∨ o.2.1 = "connections.outputName" := by
  have hnr := propagate_no_reach seed pfx (excludePass p excluded).1.tasks
    (initState seed (excludePass p excluded).1) h rfl
  have hnot : seed ∉
      (propagatePass seed pfx (excludePass p excluded).1).all_connection_type_names := by
    unfold propagatePass
    exact hnr.2.1 (by simp [initState])
  constructor
  · unfold make_injection_pipeline
    dsimp only
    rw [if_pos hnot]
  · intro o ho
    unfold propagatePass at ho
    rcases hnr.2.2.2 o ho with h1 | h1
    · left
      have hp : (excludePass p excluded).1.overrides = p.overrides :=
        excludeFold_pipeline_overrides excluded (p, [])
      exact hp ▸ h1
    · exact Or.inr h1

/-- Witness for the amended C2 on the concrete mutated pipeline. -/
theorem existence_check_error_witness :
    (∀ t ∈ (excludePass mutPipeline ["jointcal"]).1.tasks, t.isAnalysis = false →
      "x" ∉ _get_dataset_type_names t.inputs ∪ _get_dataset_type_names t.outputs) ∧
    (make_injection_pipeline "x" mutPipeline none false ["jointcal"] "injected_" =
      .error ("Dataset type '" ++ "x" ++ "' not found in the reference pipeline; " ++
        "no connection type edits to be made.") ∧
    ∀ o ∈ (propagatePass "x" "injected_"
        (excludePass mutPipeline ["jointcal"]).1).pipeline.overrides,
      o ∈ mutPipeline.overrides ∨ o.2.1 = "connections.outputName") :=
  ⟨by decide, existence_check_error_no_rename_overrides "x" "injected_" mutPipeline
    none false ["jointcal"] (by decide)⟩

/-- C10. Analysis-style (dynamic-connection) tasks contribute nothing to
the observed name catalog nor to the precursor set: when the seed occurs
only among such tasks' declared connection names, the catalog never
observes it, no precursor is recorded, and the existence check fails with
the fatal not-found error although the seed is genuinely produced or
consumed in the pipeline. -/
theorem seed_only_dynamic_not_found_error (seed pfx : String) (p : Pipeline)
    (injp : Option Pipeline) (es : Bool) (excluded : List String)
    (hA : ∀ t ∈ (excludePass p excluded).1.tasks,
      seed ∈ _get_dataset_type_names t.inputs ∪ _get_dataset_type_names t.outputs →
      t.isAnalysis = true)
    (_hEx : ∃ t ∈ (excludePass p excluded).1.tasks,
      seed ∈ _get_dataset_type_names t.inputs ∪ _get_dataset_type_names t.outputs) :
    seed ∉ (propagatePass seed pfx (excludePass p excluded).1).all_connection_type_names ∧
    (propagatePass seed pfx (excludePass p excluded).1).precursor_injection_task_labels =
      [] ∧
    make_injection_pipeline seed p injp es excluded pfx =
      .error ("Dataset type '" ++ seed ++ "' not found in the reference pipeline; " ++
        "no connection type edits to be made.") := by
  have h' : ∀ t ∈ (excludePass p excluded).1.tasks, t.isAnalysis = false →
      seed ∉ _get_dataset_type_names t.inputs ∪ _get_dataset_type_names t.outputs := by
    intro t ht hf hc
    rw [hA t ht hc] at hf
    exact Bool.noConfusion hf
  have hnr := propagate_no_reach seed pfx (excludePass p excluded).1.tasks
    (initState seed (excludePass p excluded).1) h' rfl
  have hnot : seed ∉
      (propagatePass seed pfx (excludePass p excluded).1).all_connection_type_names := by
    unfold propagatePass
    exact hnr.2.1 (by simp [initState])
  refine ⟨hnot, ?_, ?_⟩
  · unfold propagatePass
    exact hnr.2.2.1
  · unfold make_injection_pipeline
    dsimp only
    rw [if_pos hnot]

/-- Witness for C10: the seed `catSeed` is consumed only by an
analysis-style task. -/
theorem seed_only_dynamic_not_found_witness :
    (∀ t ∈ (excludePass dynOnlyPipeline []).1.tasks,
      "catSeed" ∈ _get_dataset_type_names t.inputs ∪ _get_dataset_type_names t.outputs →
      t.isAnalysis = true) ∧
    (∃ t ∈ (excludePass dynOnlyPipeline []).1.tasks,
      "catSeed" ∈ _get_dataset_type_names t.inputs ∪ _get_dataset_type_names t.outputs) ∧
    ("catSeed" ∉ (propagatePass "catSeed" "injected_"
        (excludePass dynOnlyPipeline []).1).all_connection_type_names ∧
    (propagatePass "catSeed" "injected_"
        (excludePass dynOnlyPipeline []).1).precursor_injection_task_labels = [] ∧
    make_injection_pipeline "catSeed" dynOnlyPipeline none false [] "injected_" =
      .error ("Dataset type '" ++ "catSeed" ++ "' not found in the reference pipeline; " ++
        "no connection type edits to be made.")) :=
  ⟨by decide, by decide,
    seed_only_dynamic_not_found_error "catSeed" "injected_" dynOnlyPipeline none false []
      (by decide) (by decide)⟩

theorem updateSubsetLabels_name (nm lab : String) (s : Subset) :
    (updateSubsetLabels nm lab s).name = s.name := by
  unfold updateSubsetLabels
  split_ifs <;> rfl

theorem updateSubsetLabels_mono (nm lab x : String) (s : Subset) (hx : x ∈ s.labels) :
    x ∈ (updateSubsetLabels nm lab s).labels := by
  unfold updateSubsetLabels
  split_ifs
  · exact hx
  · exact List.mem_append_left _ hx
  · exact hx

theorem updateSubsetLabels_hit (nm lab : String) (s : Subset) (h : s.name = nm) :
    lab ∈ (updateSubsetLabels nm lab s).labels := by
  unfold updateSubsetLabels
  rw [if_pos h]
  split_ifs with h2
  · exact h2
  · exact List.mem_append_right _ (by simp)

theorem updateSubsetLabels_newmem (nm lab x : String) (s : Subset)
    (hx : x ∈ (updateSubsetLabels nm lab s).labels) : x ∈ s.labels ∨ x = lab := by
  unfold updateSubsetLabels at hx
  split_ifs at hx
  · exact Or.inl hx
  · rcases List.mem_append.mp hx with h | h
    · exact Or.inl h
    · exact Or.inr (List.mem_singleton.mp h)
  · exact Or.inl hx

theorem updSubFold_name (lab : String) :
    ∀ (names : List String) (s : Subset), (updSubFold names lab s).name = s.name := by
  intro names
  induction names with
  | nil => intro s; rfl
  | cons nm names ih =>
      intro s
      unfold updSubFold
      rw [List.foldl_cons]
      have h1 := ih (updateSubsetLabels nm lab s)
      unfold updSubFold at h1
      rw [h1, updateSubsetLabels_name]

theorem updSubFold_mono (lab x : String) :
    ∀ (names : List String) (s : Subset),
      x ∈ s.labels → x ∈ (updSubFold names lab s).labels := by
  intro names
  induction names with
  | nil => intro s hx; exact hx
  | cons nm names ih =>
      intro s hx
      unfold updSubFold
      rw [List.foldl_cons]
      have h1 := ih (updateSubsetLabels nm lab s) (updateSubsetLabels_mono nm lab x s hx)
      unfold updSubFold at h1
      exact h1

theorem updSubFold_hit (lab : String) :
    ∀ (names : List String) (s : Subset),
      s.name ∈ names → lab ∈ (updSubFold names lab s).labels := by
  intro names
  induction names with
  | nil => intro s hs; cases hs
  | cons nm names ih =>
      intro s hs
      unfold updSubFold
      rw [List.foldl_cons]
      rcases List.mem_cons.mp hs with h | h
      · have h1 := updSubFold_mono lab lab names (updateSubsetLabels nm lab s)
          (updateSubsetLabels_hit nm lab s h)
        unfold updSubFold at h1
        exact h1
      · have h2 : (updateSubsetLabels nm lab s).name ∈ names := by
          rw [updateSubsetLabels_name]
          exact h
        have h1 := ih (updateSubsetLabels nm lab s) h2
        unfold updSubFold at h1
        exact h1

theorem updSubFold_newmem (lab x : String) :
    ∀ (names : List String) (s : Subset),
      x ∈ (updSubFold names lab s).labels → x ∈ s.labels ∨ x = lab := by
  intro names
  induction names with
  | nil => intro s hx; exact Or.inl hx
  | cons nm names ih =>
      intro s hx
      unfold updSubFold at hx
      rw [List.foldl_cons] at hx
      have h1 := ih (updateSubsetLabels nm lab s) (by unfold updSubFold; exact hx)
      rcases h1 with h | h
      · exact updateSubsetLabels_newmem nm lab x s h
      · exact Or.inr h

theorem addFold_subsets (lab : String) :
    ∀ (names : List String) (pl : Pipeline),
      (names.foldl (fun a subset => addLabelToSubset a subset lab) pl) =
        { pl with subsets := pl.subsets.map fun s => updSubFold names lab s } := by
  intro names
  induction names with
  | nil =>
      intro pl
      show pl = { pl with subsets := pl.subsets.map fun s => updSubFold [] lab s }
      have h1 : (pl.subsets.map fun s => updSubFold [] lab s) = pl.subsets := by
        rw [show (fun s => updSubFold [] lab s) = id from rfl, List.map_id]
      rw [h1]
  | cons nm names ih =>
      intro pl
      rw [List.foldl_cons, ih (addLabelToSubset pl nm lab)]
      have hsub : ((addLabelToSubset pl nm lab).subsets.map fun s => updSubFold names lab s) =
          pl.subsets.map fun s => updSubFold (nm :: names) lab s := by
        show ((pl.subsets.map (updateSubsetLabels nm lab)).map fun s => updSubFold names lab s) = _
        rw [List.map_map]
        rfl
      rw [hsub]
      rfl

theorem updateSubsetsForLabel_eq (lab : String) (pl : Pipeline) (x : String) :
    updateSubsetsForLabel lab pl x =
      { pl with subsets :=
          pl.subsets.map fun s => updSubFold (findSubsetsWithLabel pl x) lab s } :=
  addFold_subsets lab (findSubsetsWithLabel pl x) pl

theorem updateSubsetsForLabel_establishes (lab x : String) (pl : Pipeline) :
    ∀ s ∈ (updateSubsetsForLabel lab pl x).subsets, x ∈ s.labels → lab ∈ s.labels := by
  rw [updateSubsetsForLabel_eq]
  intro s hs hx
  simp only [List.mem_map] at hs
  obtain ⟨s0, hs0, rfl⟩ := hs
  rcases updSubFold_newmem lab x _ s0 hx with h | h
  · apply updSubFold_hit
    unfold findSubsetsWithLabel
    apply List.mem_map_of_mem
    rw [List.mem_filter]
    exact ⟨hs0, by simpa using h⟩
  · subst h
    exact hx

theorem updateSubsetsForLabel_preserves (lab x y : String) (pl : Pipeline)
    (h : ∀ s ∈ pl.subsets, x ∈ s.labels → lab ∈ s.labels) :
    ∀ s ∈ (updateSubsetsForLabel lab pl y).subsets, x ∈ s.labels → lab ∈ s.labels := by
  rw [updateSubsetsForLabel_eq]
  intro s hs hx
  simp only [List.mem_map] at hs
  obtain ⟨s0, hs0, rfl⟩ := hs
  rcases updSubFold_newmem lab x _ s0 hx with h1 | h1
  · exact updSubFold_mono lab lab _ s0 (h s0 hs0 h1)
  · rw [h1] at hx
    exact hx

theorem updateSubsets_fold_preserves (lab x : String) :
    ∀ (labels : List String) (pl : Pipeline),
      (∀ s ∈ pl.subsets, x ∈ s.labels → lab ∈ s.labels) →
      ∀ s ∈ (labels.foldl (updateSubsetsForLabel lab) pl).subsets,
        x ∈ s.labels → lab ∈ s.labels := by
  intro labels
  induction labels with
  | nil => intro pl h; exact h
  | cons y labels ih =>
      intro pl h
      rw [List.foldl_cons]
      exact ih _ (updateSubsetsForLabel_preserves lab x y pl h)

theorem updateSubsets_establishes (lab : String) :
    ∀ (labels : List String) (pl : Pipeline) (x : String), x ∈ labels →
      ∀ s ∈ (labels.foldl (updateSubsetsForLabel lab) pl).subsets,
        x ∈ s.labels → lab ∈ s.labels := by
  intro labels
  induction labels with
  | nil => intro pl x hx; cases hx
  | cons y labels ih =>
      intro pl x hx
      rw [List.foldl_cons]
      rcases List.mem_cons.mp hx with h | h
      · subst h
        exact updateSubsets_fold_preserves lab x labels _
          (updateSubsetsForLabel_establishes lab x pl)
      · exact ih _ x h

theorem addLabelToSubset_idem (pl : Pipeline) (nm lab : String)
    (h : ∀ s ∈ pl.subsets, s.name = nm → lab ∈ s.labels) :
    addLabelToSubset pl nm lab = pl := by
  unfold addLabelToSubset
  have h1 : pl.subsets.map (updateSubsetLabels nm lab) = pl.subsets := by
    have h2 : ∀ s ∈ pl.subsets, updateSubsetLabels nm lab s = s := by
      intro s hs
      unfold updateSubsetLabels
      split_ifs with h3 h4
      · rfl
      · exact absurd (h s hs h3) h4
      · rfl
    calc pl.subsets.map (updateSubsetLabels nm lab)
        = pl.subsets.map id := List.map_congr_left h2
      _ = pl.subsets := List.map_id _
  rw [h1]

/-- C5. After a merge with subset maintenance enabled, every subset of the
result that contains a precursor label also contains the merged injection
task's label; and adding a label to a subset already containing it leaves
the pipeline unchanged (the add is idempotent, never duplicating an
entry). -/
theorem merge_subset_update_and_idempotence (seed pfx : String) (pre : List String)
    (p p2 q : Pipeline) (t : TaskDef)
    (hok : mergeStep seed pfx false pre p p2 = .ok q) (ht : t ∈ p2.tasks) :
    (∀ s ∈ q.subsets, ∀ x ∈ pre, x ∈ s.labels → t.label ∈ s.labels) ∧
    (∀ (pl : Pipeline) (nm lab : String),
      (∀ s ∈ pl.subsets, s.name = nm → lab ∈ s.labels) →
      addLabelToSubset pl nm lab = pl) := by
  refine ⟨?_, fun pl nm lab h => addLabelToSubset_idem pl nm lab h⟩
  obtain ⟨t0, merged, htasks, hm, hq⟩ := mergeStep_ok_inv seed pfx false pre p p2 q hok
  rw [htasks] at ht
  simp only [List.mem_singleton] at ht
  subst ht
  rw [hq]
  unfold mergeTaskStep
  simp only [Bool.false_eq_true, if_false]
  intro s hs x hx hxs
  unfold updateSubsets at hs
  exact updateSubsets_establishes t.label pre _ x hx s hs hxs

/-- Witness for C5 on the concrete merge of `injPipeline` into
`subsetPipeline` with precursor `A`. -/
theorem merge_subset_update_witness :
    mergeStep "calexp" "injected_" false ["A"] subsetPipeline injPipeline =
        .ok mergedWitness ∧
    injTask ∈ injPipeline.tasks ∧
    ((∀ s ∈ mergedWitness.subsets, ∀ x ∈ (["A"] : List String),
        x ∈ s.labels → injTask.label ∈ s.labels) ∧
     (∀ (pl : Pipeline) (nm lab : String),
        (∀ s ∈ pl.subsets, s.name = nm → lab ∈ s.labels) →
        addLabelToSubset pl nm lab = pl)) :=
  ⟨by rfl, by decide,
    merge_subset_update_and_idempotence "calexp" "injected_" ["A"] subsetPipeline
      injPipeline mergedWitness injTask (by rfl) (by decide)⟩

end SourceInjection
